import Mathlib

/-!
Verification of the jam-discord-bot ranking and referral system (src/bot.py).

The development shallowly embeds the bot's data model and the operations the
spec talks about: the level table and `calculate_level`, the per-user stats
table with `get_user`/`update_user`, the referral log with its uniqueness
constraint (`add_referral`), invite-ownership resolution, and the join-event
attribution flow of `on_member_join`, plus the experience grant of
`on_message`. Database tables are modelled as association lists or total
functions; the external invite fetch is modelled as an `Option` argument
(`none` = the fetch raised `discord.Forbidden`).
-/

/-- Experience thresholds per level, in the order Python's
`sorted(LEVEL_THRESHOLDS.keys())` iterates them; each pair is
`(level, xp_required)` from `LEVEL_THRESHOLDS` in src/bot.py. -/
def LEVEL_THRESHOLDS : List (Nat × Nat) :=
  [(1, 100), (2, 500), (3, 1500), (4, 8000), (5, 15000), (6, 25000)]

def XP_PER_MESSAGE : Nat := 10

def XP_BONUS_LONG_MESSAGE : Nat := 5

def XP_PER_REFERRAL : Nat := 50

def XP_COOLDOWN_SECONDS : Nat := 60

/-- The loop body of `calculate_level`: walk the threshold table in order,
remembering the last level whose requirement is met, stopping at the first
requirement that is not met (the `break` in the Python loop). -/
def calculate_level_go (xp : Nat) : List (Nat × Nat) → Nat → Nat
  | [], level => level
  | (lvl, req) :: rest, level =>
      if xp ≥ req then calculate_level_go xp rest lvl else level

/-- `calculate_level(xp)` from src/bot.py: determine the highest level a user
qualifies for based on xp. -/
def calculate_level (xp : Nat) : Nat :=
  calculate_level_go xp LEVEL_THRESHOLDS 0

/-- Closed form of `calculate_level` on the concrete threshold table. -/
theorem calculate_level_closed (x : Nat) :
    calculate_level x =
      if x < 100 then 0
      else if x < 500 then 1
      else if x < 1500 then 2
      else if x < 8000 then 3
      else if x < 15000 then 4
      else if x < 25000 then 5
      else 6 := by
  simp only [calculate_level, LEVEL_THRESHOLDS, calculate_level_go, ge_iff_le]
  split_ifs <;> omega

/-- C4: `calculate_level` is monotonic — a member with at least as much
experience is assigned at least as high a level. -/
theorem calculate_level_mono (x1 x2 : Nat) (h : x1 ≤ x2) :
    calculate_level x1 ≤ calculate_level x2 := by
  rw [calculate_level_closed, calculate_level_closed]
  split_ifs <;> omega

/-- Witness for C4 at the concrete pair (99, 1500). -/
theorem calculate_level_mono_witness :
    99 ≤ 1500 ∧ calculate_level 99 ≤ calculate_level 1500 :=
  ⟨by decide, calculate_level_mono 99 1500 (by decide)⟩

/-- The spec's own description of `levelFor`: the highest configured level
whose xp threshold is ≤ the experience, and 0 when the experience is below
every threshold (written from the spec's words, to be compared against the
source's `calculate_level`). -/
def levelForSpec (x : Nat) : Nat :=
  (LEVEL_THRESHOLDS.filter (fun p => p.2 ≤ x)).foldl (fun m p => max m p.1) 0

/-- The threshold configured for a level, if that level is configured. -/
def lookupThreshold (L : Nat) : Option Nat :=
  (LEVEL_THRESHOLDS.find? (fun p => p.1 == L)).map Prod.snd

/-- Closed form of `levelForSpec` on the concrete threshold table. -/
theorem levelForSpec_closed (x : Nat) :
    levelForSpec x =
      if x < 100 then 0
      else if x < 500 then 1
      else if x < 1500 then 2
      else if x < 8000 then 3
      else if x < 15000 then 4
      else if x < 25000 then 5
      else 6 := by
  rcases Nat.lt_or_ge x 100 with h | h
  · simp [levelForSpec, LEVEL_THRESHOLDS, h,
      show ¬ 100 ≤ x by omega, show ¬ 500 ≤ x by omega,
      show ¬ 1500 ≤ x by omega, show ¬ 8000 ≤ x by omega,
      show ¬ 15000 ≤ x by omega, show ¬ 25000 ≤ x by omega]
  rcases Nat.lt_or_ge x 500 with h2 | h2
  · simp [levelForSpec, LEVEL_THRESHOLDS, h, h2,
      show ¬ x < 100 by omega, show ¬ 500 ≤ x by omega,
      show ¬ 1500 ≤ x by omega, show ¬ 8000 ≤ x by omega,
      show ¬ 15000 ≤ x by omega, show ¬ 25000 ≤ x by omega]
  rcases Nat.lt_or_ge x 1500 with h3 | h3
  · simp [levelForSpec, LEVEL_THRESHOLDS, h, h2, h3,
      show ¬ x < 100 by omega, show ¬ x < 500 by omega,
      show ¬ 1500 ≤ x by omega, show ¬ 8000 ≤ x by omega,
      show ¬ 15000 ≤ x by omega, show ¬ 25000 ≤ x by omega]
  rcases Nat.lt_or_ge x 8000 with h4 | h4
  · simp [levelForSpec, LEVEL_THRESHOLDS, h, h2, h3, h4,
      show ¬ x < 100 by omega, show ¬ x < 500 by omega,
      show ¬ x < 1500 by omega, show ¬ 8000 ≤ x by omega,
      show ¬ 15000 ≤ x by omega, show ¬ 25000 ≤ x by omega]
  rcases Nat.lt_or_ge x 15000 with h5 | h5
  · simp [levelForSpec, LEVEL_THRESHOLDS, h, h2, h3, h4, h5,
      show ¬ x < 100 by omega, show ¬ x < 500 by omega,
      show ¬ x < 1500 by omega, show ¬ x < 8000 by omega,
      show ¬ 15000 ≤ x by omega, show ¬ 25000 ≤ x by omega]
  rcases Nat.lt_or_ge x 25000 with h6 | h6
  · simp [levelForSpec, LEVEL_THRESHOLDS, h, h2, h3, h4, h5, h6,
      show ¬ x < 100 by omega, show ¬ x < 500 by omega,
      show ¬ x < 1500 by omega, show ¬ x < 8000 by omega,
      show ¬ x < 15000 by omega, show ¬ 25000 ≤ x by omega]
  · simp [levelForSpec, LEVEL_THRESHOLDS, h, h2, h3, h4, h5, h6,
      show ¬ x < 100 by omega, show ¬ x < 500 by omega,
      show ¬ x < 1500 by omega, show ¬ x < 8000 by omega,
      show ¬ x < 15000 by omega, show ¬ x < 25000 by omega]

/-- C5: `calculate_level` computes exactly the spec's "highest configured
level whose threshold is ≤ x" (0 below the first threshold), and is exact at
every configured boundary: one xp short of a level's threshold gives the
level below, and hitting the threshold gives the level. -/
theorem calculate_level_spec (x : Nat) :
    calculate_level x = levelForSpec x ∧
    (∀ L t, lookupThreshold L = some t →
      calculate_level (t - 1) = L - 1 ∧ calculate_level t = L) := by
  constructor
  · rw [calculate_level_closed, levelForSpec_closed]
  · intro L t h
    unfold lookupThreshold at h
    have hmemT : (L, t) ∈ LEVEL_THRESHOLDS := by
      cases hfind : List.find? (fun p => p.1 == L) LEVEL_THRESHOLDS with
      | none => rw [hfind] at h; exact absurd h (by simp)
      | some p =>
        rw [hfind] at h
        have hmem := List.mem_of_find?_eq_some hfind
        have hfst := List.find?_some hfind
        obtain ⟨p1, p2⟩ := p
        simp only [beq_iff_eq] at hfst
        simp only [Option.map] at h
        cases h
        subst hfst
        exact hmem
    simp only [LEVEL_THRESHOLDS, List.mem_cons, List.not_mem_nil, or_false,
      Prod.mk.injEq] at hmemT
    rcases hmemT with ⟨rfl, rfl⟩ | ⟨rfl, rfl⟩ | ⟨rfl, rfl⟩ | ⟨rfl, rfl⟩ |
      ⟨rfl, rfl⟩ | ⟨rfl, rfl⟩ <;> constructor <;> decide

/-- Witness for C5 at x = 700 and the configured level 2 (threshold 500). -/
theorem calculate_level_spec_witness :
    calculate_level 700 = levelForSpec 700 ∧
    lookupThreshold 2 = some 500 ∧
    calculate_level 499 = 1 ∧ calculate_level 500 = 2 := by
  obtain ⟨h1, h2⟩ := calculate_level_spec 700
  exact ⟨h1, by decide, (h2 2 500 (by decide)).1, (h2 2 500 (by decide)).2⟩

/-- A row of the `users` table: xp, level, referrals, total_messages. -/
structure UserStats where
  xp : Nat
  level : Nat
  referrals : Nat
  total_messages : Nat
deriving Repr, DecidableEq

/-- A row of the `referral_log` table (the SERIAL id is immaterial). -/
structure Edge where
  referrer_id : Nat
  referred_id : Nat
  timestamp : Nat
deriving Repr, DecidableEq

/-- The platform user recorded as an invite's creator. -/
structure Inviter where
  id : Nat
  bot : Bool
deriving Repr, DecidableEq

/-- A Discord invite as seen by `guild.invites()`: its code, its cumulative
use count, and (optionally) its creator. -/
structure Invite where
  code : String
  uses : Nat
  inviter : Option Inviter
deriving Repr, DecidableEq

/-- The persistent store. `users` is total because `get_user` lazily creates
a zeroed row for any id it has never seen, so every id always reads a value;
`referral_log` and `invite_owners` are the other two tables. -/
structure DB where
  users : Nat → UserStats
  referral_log : List Edge
  invite_owners : List (String × Nat)

/-- `get_user`: read a member's row, observing the zeroed default for a
member with no row yet (the lazy INSERT writes exactly that default). -/
def get_user (users : Nat → UserStats) (user_id : Nat) : UserStats :=
  users user_id

/-- `update_user`: overwrite the given member's row with new field values. -/
def update_user (users : Nat → UserStats) (user_id : Nat) (s : UserStats) :
    Nat → UserStats :=
  fun i => if i = user_id then s else users i

/-- Whether the referral log already holds an edge for this referred member —
exactly the condition under which the UNIQUE constraint on `referred_id`
rejects an INSERT. -/
def hasEdgeFor (log : List Edge) (referred_id : Nat) : Bool :=
  log.any (fun e => e.referred_id == referred_id)

/-- `add_referral`: insert a referral-log row; the UNIQUE constraint on
`referred_id` makes the INSERT raise `IntegrityError` when an edge for the
referred member exists, in which case the transaction is rolled back and
the function returns `false`. -/
def add_referral (log : List Edge) (referrer_id referred_id t : Nat) :
    List Edge × Bool :=
  if hasEdgeFor log referred_id then (log, false)
  else (⟨referrer_id, referred_id, t⟩ :: log, true)

/-- `get_invite_owner`: look up the `/mylink` owner of an invite code. -/
def get_invite_owner (owners : List (String × Nat)) (invite_code : String) :
    Option Nat :=
  owners.lookup invite_code

/-- The snapshot's last-known use count for a code: `old_cache.get(inv.code, 0)`
— a code absent from the snapshot reads as 0. -/
def cached_uses (cache : List (String × Nat)) (code : String) : Nat :=
  match cache.lookup code with
  | some n => n
  | none => 0

/-- The invite-selection loop of `on_member_join`: the first invite in the
freshly fetched list whose use count strictly exceeds the snapshot's
last-known count for its code (`break` on the first hit). -/
def find_used_invite (cache : List (String × Nat)) (invites : List Invite) :
    Option Invite :=
  invites.find? (fun inv => cached_uses cache inv.code < inv.uses)

/-- `{inv.code: inv.uses for inv in new_invites}` — the snapshot rebuilt from
a fresh fetch. -/
def snapshot_of (invites : List Invite) : List (String × Nat) :=
  invites.map (fun inv => (inv.code, inv.uses))

/-- Referrer resolution in `on_member_join`: the invite's `/mylink` owner if
registered, otherwise the invite's platform-recorded creator provided that
creator exists and is not a bot. -/
def resolve_referrer (owners : List (String × Nat)) (inv : Invite) :
    Option Nat :=
  match get_invite_owner owners inv.code with
  | some rid => some rid
  | none =>
      match inv.inviter with
      | some ivr => if ivr.bot then none else some ivr.id
      | none => none

/-- Result of one join-event attribution: the store and snapshot afterwards,
and the referrer credited (`none` on every no-referrer path). -/
structure JoinResult where
  db : DB
  cache : List (String × Nat)
  referrer : Option Nat

/-- The referrer-credit block of `on_member_join`: read the referrer's row,
bump referrals by one and xp by `XP_PER_REFERRAL`, recompute the level, and
write the row back. -/
def credit_referrer (users : Nat → UserStats) (referrer_id : Nat) :
    Nat → UserStats :=
  let ref_user := get_user users referrer_id
  let new_referrals := ref_user.referrals + 1
  let new_xp := ref_user.xp + XP_PER_REFERRAL
  let new_level := calculate_level new_xp
  update_user users referrer_id
    { ref_user with referrals := new_referrals, xp := new_xp, level := new_level }

/-- `on_member_join` from src/bot.py, as a function of the store, the guild's
invite snapshot, the result of `guild.invites()` (`none` = the fetch raised
`discord.Forbidden`), the joining member's id, and the current time. -/
def on_member_join (db : DB) (cache : List (String × Nat))
    (fetched : Option (List Invite)) (member_id t : Nat) : JoinResult :=
  match fetched with
  | none => ⟨db, cache, none⟩
  | some new_invites =>
      let cache2 := snapshot_of new_invites
      match find_used_invite cache new_invites with
      | none => ⟨db, cache2, none⟩
      | some used_invite =>
          match resolve_referrer db.invite_owners used_invite with
          | none => ⟨db, cache2, none⟩
          | some referrer_id =>
              if referrer_id = member_id then ⟨db, cache2, none⟩
              else
                let res := add_referral db.referral_log referrer_id member_id t
                if res.2 then
                  ⟨⟨credit_referrer db.users referrer_id, res.1,
                    db.invite_owners⟩, cache2, some referrer_id⟩
                else
                  ⟨⟨db.users, res.1, db.invite_owners⟩, cache2, none⟩

/-- The command markers `("!", "/", "?", ".")` whose messages earn no xp
(`IGNORED_PREFIXES` in src/bot.py; renamed here). -/
def IGNORED_STARTS : List String := ["!", "/", "?", "."]

/-- One string beginning with another, by characters (the semantics of
Python's `str.startswith` for a single marker). -/
def strStarts : List Char → List Char → Bool
  | [], _ => true
  | _ :: _, [] => false
  | c :: cs, d :: ds => c == d && strStarts cs ds

/-- `content.startswith(IGNORED_PREFIXES)`: the content begins with one of
the ignored command markers. -/
def startsWithIgnored (content : String) : Bool :=
  IGNORED_STARTS.any (fun p => strStarts p.data content.data)

/-- The gate deciding whether a message is credited with xp in `on_message`:
the author is not a bot, the content does not start with an ignored command
marker, and the per-member cooldown (60 time units since the last credited
message) has elapsed. -/
def message_credited (author_bot : Bool) (content : String)
    (now last_xp_time : Nat) : Bool :=
  !author_bot && !startsWithIgnored content &&
    !(now - last_xp_time < XP_COOLDOWN_SECONDS)

/-- The xp computation of `on_message`: `XP_PER_MESSAGE`, plus
`XP_BONUS_LONG_MESSAGE` when the content is 50 or more characters long. -/
def xp_earned_for (content : String) : Nat :=
  XP_PER_MESSAGE +
    (if content.length ≥ 50 then XP_BONUS_LONG_MESSAGE else 0)

/-- The database update of a credited message in `on_message`: add the earned
xp, bump the message count, recompute the level, write the row back. -/
def grant_message_xp (users : Nat → UserStats) (user_id : Nat)
    (content : String) : Nat → UserStats :=
  let user := get_user users user_id
  let new_xp := user.xp + xp_earned_for content
  let new_messages := user.total_messages + 1
  let new_level := calculate_level new_xp
  update_user users user_id
    { user with
      xp := new_xp
      total_messages := new_messages
      level := new_level }

/-- The `/setxp` admin override: set the member's xp to the given value and
the level to `calculate_level` of it. -/
def setxp_update (users : Nat → UserStats) (member_id xp : Nat) :
    Nat → UserStats :=
  let user := get_user users member_id
  update_user users member_id
    { user with xp := xp, level := calculate_level xp }

/-- `level == levelFor(experience)` on every row of the users table. -/
def LevelInvariant (users : Nat → UserStats) : Prop :=
  ∀ uid, (users uid).level = calculate_level (users uid).xp

/-- Number of referral-log rows naming this member as the referred one. -/
def edgeCountFor (log : List Edge) (referred_id : Nat) : Nat :=
  (log.filter (fun e => e.referred_id == referred_id)).length

/-- A log that reports no edge for a member holds zero rows for them. -/
theorem edgeCountFor_eq_zero {log : List Edge} {r : Nat}
    (h : hasEdgeFor log r = false) : edgeCountFor log r = 0 := by
  unfold edgeCountFor
  rw [List.length_eq_zero, List.filter_eq_nil_iff]
  unfold hasEdgeFor at h
  rw [List.any_eq_false] at h
  exact h

/-- Crediting a referrer never lowers anyone's xp. -/
theorem credit_referrer_xp_le (users : Nat → UserStats) (rid uid : Nat) :
    (users uid).xp ≤ (credit_referrer users rid uid).xp := by
  unfold credit_referrer update_user get_user
  by_cases h : uid = rid
  · simp [h]
  · simp [h]

/-- Crediting a referrer preserves the level invariant. -/
theorem credit_referrer_invariant {users : Nat → UserStats} (rid : Nat)
    (h : LevelInvariant users) : LevelInvariant (credit_referrer users rid) := by
  intro uid
  unfold credit_referrer update_user get_user
  by_cases huid : uid = rid
  · simp [huid]
  · simp [huid]
    exact h uid

/-- C3: when the invite fetch fails (`discord.Forbidden`), attribution for
that join aborts with no referrer, and both the store and the community's
invite snapshot are left exactly as they were. -/
theorem fetch_failure_aborts (db : DB) (cache : List (String × Nat))
    (member_id t : Nat) :
    on_member_join db cache none member_id t =
      ⟨db, cache, none⟩ := rfl

/-- C10: a credited message (non-bot author, no ignored command marker,
cooldown elapsed) earns exactly 10 xp when the content is shorter than 50
characters, and exactly 15 xp (10 plus the 5-point long-message bonus) when
it is 50 or more — message xp is not a single constant. -/
theorem message_xp_amount (author_bot : Bool) (content : String)
    (now last : Nat) (users : Nat → UserStats) (user_id : Nat)
    (_hc : message_credited author_bot content now last = true) :
    (content.length < 50 →
      (grant_message_xp users user_id content user_id).xp =
        (users user_id).xp + 10) ∧
    (50 ≤ content.length →
      (grant_message_xp users user_id content user_id).xp =
        (users user_id).xp + 15) := by
  constructor
  · intro h
    simp [grant_message_xp, update_user, get_user, xp_earned_for,
      XP_PER_MESSAGE, XP_BONUS_LONG_MESSAGE, show ¬ content.length ≥ 50 by omega]
  · intro h
    simp [grant_message_xp, update_user, get_user, xp_earned_for,
      XP_PER_MESSAGE, XP_BONUS_LONG_MESSAGE, show content.length ≥ 50 from h]

/-- Witness for C10: a short and a long message, both passing the credit
gate, earn 10 and 15 xp respectively. -/
theorem message_xp_amount_witness :
    (grant_message_xp (fun _ => ⟨0, 0, 0, 0⟩) 7 "hi" 7).xp = 0 + 10 ∧
    (grant_message_xp (fun _ => ⟨0, 0, 0, 0⟩) 7
      "this message is certainly longer than fifty characters in total" 7).xp =
      0 + 15 :=
  ⟨(message_xp_amount false "hi" 60 0 (fun _ => ⟨0, 0, 0, 0⟩) 7
      (by decide)).1 (by decide),
   (message_xp_amount false
      "this message is certainly longer than fifty characters in total" 60 0
      (fun _ => ⟨0, 0, 0, 0⟩) 7 (by decide)).2 (by decide)⟩

/-- C9: every experience delta a delta-applying path passes is strictly
positive — the message path computes at least `XP_PER_MESSAGE` and the
referral path credits `XP_PER_REFERRAL` — so no invocation of the
experience-applying update ever carries a negative delta (the rejection
clause is vacuously satisfied), and no delta-applying path ever decreases a
member's stored experience. -/
theorem xp_delta_positive :
    (∀ content, 0 < xp_earned_for content) ∧
    0 < XP_PER_REFERRAL ∧
    (∀ users user_id content uid,
      (users uid).xp ≤ (grant_message_xp users user_id content uid).xp) ∧
    (∀ db cache fetched m t uid,
      (db.users uid).xp ≤
        ((on_member_join db cache fetched m t).db.users uid).xp) := by
  refine ⟨?_, by decide, ?_, ?_⟩
  · intro content
    unfold xp_earned_for XP_PER_MESSAGE XP_BONUS_LONG_MESSAGE
    split <;> omega
  · intro users user_id content uid
    unfold grant_message_xp update_user get_user
    by_cases h : uid = user_id
    · simp [h]
    · simp [h]
  · intro db cache fetched m t uid
    cases fetched with
    | none => exact Nat.le_refl _
    | some invs =>
      cases hf : find_used_invite cache invs with
      | none => simp [on_member_join, hf]
      | some inv =>
        cases hr : resolve_referrer db.invite_owners inv with
        | none => simp [on_member_join, hf, hr]
        | some rid =>
          by_cases hm : rid = m
          · simp [on_member_join, hf, hr, hm]
          · by_cases hs : (add_referral db.referral_log rid m t).2 = true
            · simp only [on_member_join, hf, hr, if_neg hm, if_pos hs]
              exact credit_referrer_xp_le db.users rid uid
            · simp [on_member_join, hf, hr, if_neg hm, if_neg hs]

/-- C6: after every mutation of a member's stored stats — the message-driven
xp grant, the referral credit inside join handling, and the `/setxp` admin
override — every stored level equals `calculate_level` of the stored xp. -/
theorem level_invariant_preserved :
    (∀ users user_id content, LevelInvariant users →
      LevelInvariant (grant_message_xp users user_id content)) ∧
    (∀ db cache fetched m t, LevelInvariant db.users →
      LevelInvariant ((on_member_join db cache fetched m t).db.users)) ∧
    (∀ users member_id xp, LevelInvariant users →
      LevelInvariant (setxp_update users member_id xp)) := by
  refine ⟨?_, ?_, ?_⟩
  · intro users user_id content h uid
    unfold grant_message_xp update_user get_user
    by_cases huid : uid = user_id
    · simp [huid]
    · simp [huid]
      exact h uid
  · intro db cache fetched m t h
    cases fetched with
    | none => exact h
    | some invs =>
      cases hf : find_used_invite cache invs with
      | none => simpa [on_member_join, hf] using h
      | some inv =>
        cases hr : resolve_referrer db.invite_owners inv with
        | none => simpa [on_member_join, hf, hr] using h
        | some rid =>
          by_cases hm : rid = m
          · simpa [on_member_join, hf, hr, hm] using h
          · by_cases hs : (add_referral db.referral_log rid m t).2 = true
            · simp only [on_member_join, hf, hr, if_neg hm, if_pos hs]
              exact credit_referrer_invariant rid h
            · simpa [on_member_join, hf, hr, if_neg hm, if_neg hs] using h
  · intro users member_id xp h uid
    unfold setxp_update update_user get_user
    by_cases huid : uid = member_id
    · simp [huid]
    · simp [huid]
      exact h uid

/-- Witness for C6: starting from the all-zero table, a short message, a
join-driven referral credit, and an admin override each leave the touched
row satisfying level = calculate_level(xp). -/
theorem level_invariant_preserved_witness :
    ((grant_message_xp (fun _ => ⟨0, 0, 0, 0⟩) 7 "hi") 7).level =
      calculate_level (((grant_message_xp (fun _ => ⟨0, 0, 0, 0⟩) 7 "hi") 7).xp) ∧
    ((setxp_update (fun _ => ⟨0, 0, 0, 0⟩) 7 600) 7).level =
      calculate_level (((setxp_update (fun _ => ⟨0, 0, 0, 0⟩) 7 600) 7).xp) :=
  ⟨(level_invariant_preserved.1 (fun _ => ⟨0, 0, 0, 0⟩) 7 "hi"
      (fun _ => rfl)) 7,
   (level_invariant_preserved.2.2 (fun _ => ⟨0, 0, 0, 0⟩) 7 600
      (fun _ => rfl)) 7⟩

/-- C7: when the resolved referrer is the joining member itself, attribution
returns no referrer — no referral edge is inserted and nobody's stats
change. -/
theorem self_referral_guard (db : DB) (cache : List (String × Nat))
    (invs : List Invite) (m t : Nat) (inv : Invite)
    (hf : find_used_invite cache invs = some inv)
    (hr : resolve_referrer db.invite_owners inv = some m) :
    (on_member_join db cache (some invs) m t).referrer = none ∧
    (on_member_join db cache (some invs) m t).db.referral_log =
      db.referral_log ∧
    (on_member_join db cache (some invs) m t).db.users = db.users := by
  refine ⟨?_, ?_, ?_⟩ <;> simp [on_member_join, hf, hr]

/-- An empty store, used by concrete witnesses. -/
def dbEmpty : DB := ⟨fun _ => ⟨0, 0, 0, 0⟩, [], []⟩

/-- An invite created by (non-bot) member 42, used once. -/
def invSelf : Invite := ⟨"c0", 1, some ⟨42, false⟩⟩

/-- Witness for C7: member 42 joining through their own invite is credited
to nobody and changes no rows. -/
theorem self_referral_guard_witness :
    (on_member_join dbEmpty [] (some [invSelf]) 42 3).referrer = none ∧
    (on_member_join dbEmpty [] (some [invSelf]) 42 3).db.referral_log =
      dbEmpty.referral_log ∧
    (on_member_join dbEmpty [] (some [invSelf]) 42 3).db.users =
      dbEmpty.users :=
  self_referral_guard dbEmpty [] [invSelf] 42 3 invSelf (by decide) (by decide)

/-- Dichotomy of one join-event attribution: either it is a no-referrer run
that leaves the log and every user row untouched, or the member had no prior
edge and exactly one new edge for them is prepended while the (distinct)
referrer is credited. -/
theorem on_member_join_cases (db : DB) (cache : List (String × Nat))
    (fetched : Option (List Invite)) (m t : Nat) :
    ((on_member_join db cache fetched m t).db.referral_log =
        db.referral_log ∧
      (on_member_join db cache fetched m t).db.users = db.users ∧
      (on_member_join db cache fetched m t).referrer = none) ∨
    (hasEdgeFor db.referral_log m = false ∧
      ∃ rid, (on_member_join db cache fetched m t).db.referral_log =
          ⟨rid, m, t⟩ :: db.referral_log ∧
        (on_member_join db cache fetched m t).db.users =
          credit_referrer db.users rid ∧
        (on_member_join db cache fetched m t).referrer = some rid ∧
        rid ≠ m) := by
  cases fetched with
  | none => exact Or.inl ⟨rfl, rfl, rfl⟩
  | some invs =>
    cases hf : find_used_invite cache invs with
    | none => left; refine ⟨?_, ?_, ?_⟩ <;> simp [on_member_join, hf]
    | some inv =>
      cases hr : resolve_referrer db.invite_owners inv with
      | none => left; refine ⟨?_, ?_, ?_⟩ <;> simp [on_member_join, hf, hr]
      | some rid =>
        by_cases hm : rid = m
        · left; refine ⟨?_, ?_, ?_⟩ <;> simp [on_member_join, hf, hr, hm]
        · by_cases he : hasEdgeFor db.referral_log m = true
          · left
            have hadd : add_referral db.referral_log rid m t =
                (db.referral_log, false) := by
              unfold add_referral; rw [if_pos he]
            refine ⟨?_, ?_, ?_⟩ <;>
              simp [on_member_join, hf, hr, if_neg hm, hadd]
          · right
            have he2 : hasEdgeFor db.referral_log m = false :=
              Bool.eq_false_iff.mpr he
            have hadd : add_referral db.referral_log rid m t =
                (⟨rid, m, t⟩ :: db.referral_log, true) := by
              unfold add_referral; rw [if_neg (by simp [he2])]
            refine ⟨he2, rid, ?_, ?_, ?_, hm⟩ <;>
              simp [on_member_join, hf, hr, if_neg hm, hadd]

/-- C1: attribution is at-most-once. If the joining member already has a
referral edge (re-join or duplicate event delivery), the insertion is
rejected by the uniqueness constraint, the run returns no referrer, and no
user row changes; and any run keeps the member's edge count at most one, so
a referrer is credited at most once per referred member. -/
theorem attribution_at_most_once (db : DB) (cache : List (String × Nat))
    (fetched : Option (List Invite)) (m t : Nat) :
    (hasEdgeFor db.referral_log m = true →
      (on_member_join db cache fetched m t).referrer = none ∧
      (on_member_join db cache fetched m t).db.referral_log =
        db.referral_log ∧
      (on_member_join db cache fetched m t).db.users = db.users) ∧
    (edgeCountFor db.referral_log m ≤ 1 →
      edgeCountFor (on_member_join db cache fetched m t).db.referral_log m
        ≤ 1) := by
  constructor
  · intro h
    rcases on_member_join_cases db cache fetched m t with
      ⟨h1, h2, h3⟩ | ⟨hfalse, _⟩
    · exact ⟨h3, h1, h2⟩
    · rw [h] at hfalse; exact absurd hfalse (by simp)
  · intro hcount
    rcases on_member_join_cases db cache fetched m t with
      ⟨h1, _, _⟩ | ⟨hfalse, rid, hlog, _, _, _⟩
    · rw [h1]; exact hcount
    · rw [hlog]
      have h0 := edgeCountFor_eq_zero hfalse
      simp [edgeCountFor, List.filter_cons] at h0 ⊢
      exact h0

/-- A store in which member 2 was already referred by member 5. -/
def dbReferred : DB := ⟨fun _ => ⟨0, 0, 0, 0⟩, [⟨5, 2, 0⟩], []⟩

/-- Witness for C1: a duplicate join of member 2 (their invite counter shows
another increase) is rejected — no referrer, identical log, identical users,
edge count still at most one. -/
theorem attribution_at_most_once_witness :
    (on_member_join dbReferred [("c0", 0)]
        (some [⟨"c0", 1, some ⟨5, false⟩⟩]) 2 9).referrer = none ∧
    (on_member_join dbReferred [("c0", 0)]
        (some [⟨"c0", 1, some ⟨5, false⟩⟩]) 2 9).db.referral_log =
      dbReferred.referral_log ∧
    (on_member_join dbReferred [("c0", 0)]
        (some [⟨"c0", 1, some ⟨5, false⟩⟩]) 2 9).db.users =
      dbReferred.users ∧
    edgeCountFor (on_member_join dbReferred [("c0", 0)]
        (some [⟨"c0", 1, some ⟨5, false⟩⟩]) 2 9).db.referral_log 2 ≤ 1 := by
  have h := attribution_at_most_once dbReferred [("c0", 0)]
    (some [⟨"c0", 1, some ⟨5, false⟩⟩]) 2 9
  exact ⟨(h.1 (by decide)).1, (h.1 (by decide)).2.1, (h.1 (by decide)).2.2,
    h.2 (by decide)⟩

/-- A successful `find?` returns a hit that is first in list order: the list
splits around it and everything before it fails the predicate. -/
theorem find?_eq_some_first {α : Type} (p : α → Bool) (l : List α) (a : α)
    (h : l.find? p = some a) :
    p a = true ∧ ∃ l1 l2, l = l1 ++ a :: l2 ∧ ∀ b ∈ l1, p b = false := by
  induction l with
  | nil => simp at h
  | cons x xs ih =>
    by_cases hx : p x = true
    · rw [List.find?_cons_of_pos _ hx] at h
      obtain rfl : x = a := by injection h
      exact ⟨hx, [], xs, rfl, by simp⟩
    · rw [List.find?_cons_of_neg _ hx] at h
      obtain ⟨hpa, l1, l2, rfl, hall⟩ := ih h
      refine ⟨hpa, x :: l1, l2, rfl, ?_⟩
      intro b hb
      rcases List.mem_cons.1 hb with rfl | hb2
      · exact Bool.eq_false_iff.mpr hx
      · exact hall b hb2

/-- C2: the invite selected as consumed on a join is the first invite, in
the platform's returned order, whose use count strictly exceeds the
snapshot's last-known count for its code; a code absent from the snapshot is
read as baseline 0; and when no invite shows a strict increase the join is
attributed to no referrer (and the store is untouched). -/
theorem used_invite_selection (cache : List (String × Nat))
    (invs : List Invite) :
    (∀ code, cache.lookup code = none → cached_uses cache code = 0) ∧
    (find_used_invite cache invs = none ↔
      ∀ inv ∈ invs, inv.uses ≤ cached_uses cache inv.code) ∧
    (∀ inv, find_used_invite cache invs = some inv →
      cached_uses cache inv.code < inv.uses ∧
      ∃ l1 l2, invs = l1 ++ inv :: l2 ∧
        ∀ prev ∈ l1, prev.uses ≤ cached_uses cache prev.code) ∧
    (∀ db m t, find_used_invite cache invs = none →
      (on_member_join db cache (some invs) m t).referrer = none ∧
      (on_member_join db cache (some invs) m t).db = db) := by
  refine ⟨?_, ?_, ?_, ?_⟩
  · intro code h
    unfold cached_uses
    rw [h]
  · unfold find_used_invite
    rw [List.find?_eq_none]
    constructor
    · intro h inv hmem
      have := h inv hmem
      simpa [Nat.not_lt] using this
    · intro h inv hmem
      simpa [Nat.not_lt] using h inv hmem
  · intro inv h
    obtain ⟨hp, l1, l2, rfl, hall⟩ := find?_eq_some_first _ _ _ h
    refine ⟨by simpa using hp, l1, l2, rfl, ?_⟩
    intro prev hprev
    have := hall prev hprev
    simpa [Nat.not_lt] using this
  · intro db m t h
    constructor <;> simp [on_member_join, h]

/-- The spec's snapshot test vector: prior counts A=5, B=2. -/
def cacheAB : List (String × Nat) := [("A", 5), ("B", 2)]

/-- The fresh invite list A=5, B=3, C=1 (C unseen before). -/
def invsABC : List Invite := [⟨"A", 5, none⟩, ⟨"B", 3, none⟩, ⟨"C", 1, none⟩]

/-- Witness for C2 on the spec's own vector: B (2 → 3) is selected, its
count strictly exceeding the snapshot's, and the unseen code C reads as
baseline 0. -/
theorem used_invite_selection_witness :
    find_used_invite cacheAB invsABC = some ⟨"B", 3, none⟩ ∧
    cached_uses cacheAB "B" < 3 ∧
    cached_uses cacheAB "C" = 0 :=
  ⟨by decide,
   ((used_invite_selection cacheAB invsABC).2.2.1 ⟨"B", 3, none⟩
      (by decide)).1,
   (used_invite_selection cacheAB invsABC).1 "C" (by decide)⟩
